import Mathlib

/-!
Verification of the workflow execution engine (`WorkflowEngine`, source file
`src/core/WorkflowEngine.ts`) and the multi-provider LLM dispatch layer
(`LLMManager`, source file `src/quality/llm/LLMManager.ts`) of the
Inquiryon-workflows repository, as a shallow embedding in Lean 4.

Modelling conventions:
- JavaScript objects / `Record<string, any>` values are modelled by the
  inductive type `Value` together with association lists with JS `Map` /
  object-property update semantics (`alookup`, `aset`, `aerase`).
- `Date` timestamps (`createdAt`, `updatedAt`) carry no logic in the source
  beyond being stamped, and no claim mentions them; they are omitted from the
  state record.
- `uuidv4()` is modelled by passing the generated id as an explicit argument;
  the reachability relation assumes the generated instance id is fresh
  (no uuid collision).
- A method that mutates `this` and may `throw` is embedded as a function
  returning `Engine × Except String result`: the returned engine is the state
  at method exit, whether the method returned normally or threw.
- Event emission (`emitEvent`) is modelled by returning the list of emitted
  events (event payloads restricted to the fields the events carry that have
  claim-relevant content; the generated event uuid and timestamp are omitted).
  Each assignment `state.status = X` in the source is additionally recorded in
  a `statusWrites` trace so that status-transition claims can be stated.
-/

/-- A JavaScript runtime value (the fragment needed by the engine: `null`,
booleans, integers, strings and plain objects). -/
inductive Value where
  | vNull : Value
  | vBool : Bool → Value
  | vInt : Int → Value
  | vStr : String → Value
  | vObj : List (String × Value) → Value

/-- JS truthiness for `Value` (`null`, `false`, `0`, `""` are falsy). -/
def truthy : Value → Bool
  | Value.vNull => false
  | Value.vBool b => b
  | Value.vInt n => n != 0
  | Value.vStr s => s ≠ ""
  | Value.vObj _ => true

/-- Lookup in an association list (JS `Map.get` / object property read). -/
def alookup {α : Type} : List (String × α) → String → Option α
  | [], _ => none
  | (k, v) :: rest, key => if k = key then some v else alookup rest key

/-- Update in an association list (JS `Map.set` / object property write):
replaces the value of an existing key in place, otherwise appends. -/
def aset {α : Type} : List (String × α) → String → α → List (String × α)
  | [], key, value => [(key, value)]
  | (k, v) :: rest, key, value =>
    if k = key then (k, value) :: rest else (k, v) :: aset rest key value

/-- Removal from an association list (JS `Map.delete`; keys built via `aset`
are unique, so removing every binding of the key is the same operation). -/
def aerase {α : Type} : List (String × α) → String → List (String × α)
  | [], _ => []
  | (k, v) :: rest, key =>
    if k = key then aerase rest key else (k, v) :: aerase rest key

theorem alookup_aset {α : Type} (m : List (String × α)) (k : String) (v : α) (k' : String) :
    alookup (aset m k v) k' = if k' = k then some v else alookup m k' := by
  induction m with
  | nil =>
    by_cases h : k' = k
    · simp [aset, alookup, h]
    · simp [aset, alookup, h, Ne.symm h]
  | cons kv rest ih =>
    obtain ⟨k0, v0⟩ := kv
    by_cases h0 : k0 = k
    · subst h0
      by_cases h1 : k' = k0
      · subst h1
        simp [aset, alookup]
      · simp [aset, alookup, h1, Ne.symm h1]
    · by_cases h1 : k0 = k'
      · subst h1
        simp [aset, alookup, h0, Ne.symm h0]
      · simp [aset, alookup, h0, h1, ih]

theorem alookup_aerase {α : Type} (m : List (String × α)) (k : String) (k' : String) :
    alookup (aerase m k) k' = if k' = k then none else alookup m k' := by
  induction m with
  | nil => simp [aerase, alookup]
  | cons kv rest ih =>
    obtain ⟨k0, v0⟩ := kv
    by_cases h0 : k0 = k
    · subst h0
      by_cases h1 : k' = k0
      · subst h1
        simpa [aerase] using ih
      · simp [aerase, alookup, h1, Ne.symm h1, ih]
    · by_cases h1 : k0 = k'
      · subst h1
        simp [aerase, alookup, h0, Ne.symm h0]
      · simp [aerase, alookup, h0, h1, ih]

/-! ## Workflow data model (source file `src/types/workflow.ts`) -/

/-- The step configuration keys the engine reads (`step.config` is
`Record<string, any>` in the source; only these four keys are accessed). -/
structure StepConfig where
  prompt : Option String
  inputType : Option String
  options : Option (List String)
  metadata : Option Value

/-- `WorkflowStep` (the source field `type` is a Lean keyword and is embedded
as `stepType`; it is a plain string at runtime, so unknown tags can occur). -/
structure WorkflowStep where
  id : String
  name : String
  stepType : String
  config : StepConfig
  dependencies : Option (List String)

/-- `WorkflowDefinition`. -/
structure WorkflowDefinition where
  id : String
  name : String
  description : Option String
  steps : List WorkflowStep
  metadata : Option Value

/-- `WorkflowState.status`. -/
inductive Status where
  | pending | running | paused | completed | failed
deriving DecidableEq, Repr

/-- `WorkflowState` (timestamps omitted, see header). -/
structure WorkflowState where
  id : String
  workflowId : String
  currentStepId : Option String
  completedSteps : List String
  stepData : List (String × Value)
  status : Status

/-- `HumanInput`. -/
structure HumanInput where
  stepId : String
  prompt : String
  inputType : String
  options : Option (List String)
  metadata : Option Value

/-- `StepResult`. -/
structure StepResult where
  stepId : String
  success : Bool
  data : Option Value
  error : Option String
  requiresHuman : Option HumanInput

/-- The payload of a `WorkflowEvent` (the five event kinds of
`src/types/events.ts`, restricted to their claim-relevant fields). -/
inductive EventData where
  | step_started : String → EventData
  | step_completed : String → Option Value → EventData
  | human_input_required : HumanInput → EventData
  | workflow_completed : EventData
  | workflow_failed : String → Option String → EventData

/-- A `WorkflowEvent` as emitted by `emitEvent` (the `workflowId` field of the
source event is the instance id passed to `emitEvent`; generated event uuid and
timestamp omitted). -/
structure WorkflowEvent where
  workflowId : String
  data : EventData

/-! ## WorkflowEngine (source file `src/core/WorkflowEngine.ts`) -/

/-- JS `a || b` for an optional string (`""` is falsy and falls through). -/
def jsOrStr (v : Option String) (d : String) : String :=
  match v with
  | some s => if s = "" then d else s
  | none => d

/-- `WorkflowEngine.executeStep` (the default, overridable step behavior):
dispatch on the step's `type` tag. -/
def executeStep (step : WorkflowStep) (_state : WorkflowState) : StepResult :=
  if step.stepType = "human" then
    { stepId := step.id
      success := true
      data := none
      error := none
      requiresHuman := some
        { stepId := step.id
          prompt := jsOrStr step.config.prompt ("Input required for step: " ++ step.name)
          inputType := jsOrStr step.config.inputType "text"
          options := step.config.options
          metadata := step.config.metadata } }
  else if step.stepType = "system" then
    { stepId := step.id
      success := true
      data := some (Value.vObj [("message", Value.vStr ("System step " ++ step.name ++ " completed"))])
      error := none
      requiresHuman := none }
  else if step.stepType = "agent" then
    { stepId := step.id
      success := true
      data := some (Value.vObj [("message", Value.vStr ("Agent step " ++ step.name ++ " completed"))])
      error := none
      requiresHuman := none }
  else
    { stepId := step.id
      success := false
      data := none
      error := some ("Unknown step type: " ++ step.stepType)
      requiresHuman := none }

/-- A step executor: the dynamic-dispatch slot for `executeStep` (the source
method is `protected` and overridable in subclasses). `Except.error` models a
thrown error, caught by the engine loop's `catch`. -/
def StepExecutor : Type := WorkflowStep → WorkflowState → Except String StepResult

/-- The default executor: the engine's own `executeStep`, which never throws. -/
def defaultExecutor : StepExecutor := fun step state => Except.ok (executeStep step state)

/-- The predicate of `WorkflowEngine.findNextStep` (the arrow function passed
to `workflow.steps.find`): skip completed steps; if the step declares
dependencies, require every one completed; a step without a `dependencies`
field always qualifies. An empty `dependencies` array is truthy in JS and
trivially satisfies `every`. -/
def stepReady (state : WorkflowState) (step : WorkflowStep) : Bool :=
  if state.completedSteps.contains step.id then false
  else
    match step.dependencies with
    | some deps => deps.all (fun dep => state.completedSteps.contains dep)
    | none => true

/-- `WorkflowEngine.findNextStep`: first step of the definition's declared
order whose `stepReady` predicate holds. -/
def findNextStep (workflow : WorkflowDefinition) (state : WorkflowState) : Option WorkflowStep :=
  workflow.steps.find? (stepReady state)

/-- Number of steps of the definition not yet completed: the termination
measure of the execution loop. -/
def countRemaining (steps : List WorkflowStep) (completed : List String) : Nat :=
  (steps.filter (fun s => !(completed.contains s.id))).length

/-- The result of one run of the engine's execution loop on one instance:
the final instance state, the pending human input stored by the pause branch
(if any), the emitted events, and the trace of `state.status` assignments. -/
structure LoopResult where
  state : WorkflowState
  setPending : Option HumanInput
  events : List WorkflowEvent
  statusWrites : List Status

theorem length_filter_mono {α : Type} (l : List α) (p q : α → Bool)
    (h : ∀ a, q a = true → p a = true) :
    (l.filter q).length ≤ (l.filter p).length := by
  induction l with
  | nil => simp
  | cons b t ih =>
    by_cases hq : q b = true
    · simp [List.filter, hq, h b hq]; omega
    · simp only [Bool.not_eq_true] at hq
      cases hp : p b <;> simp [List.filter, hq, hp] <;> omega

theorem length_filter_lt {α : Type} (l : List α) (p q : α → Bool)
    (h : ∀ a, q a = true → p a = true)
    (a : α) (ha : a ∈ l) (hpa : p a = true) (hqa : q a = false) :
    (l.filter q).length < (l.filter p).length := by
  induction l with
  | nil => simp at ha
  | cons b t ih =>
    rcases List.mem_cons.mp ha with rfl | hmem
    · simp [List.filter, hqa, hpa]
      calc (t.filter q).length ≤ (t.filter p).length := length_filter_mono t p q h
        _ < (t.filter p).length + 1 := Nat.lt_succ_self _
    · cases hq : q b
      · cases hp : p b
        · simp [List.filter, hq, hp]
          exact ih hmem
        · simp [List.filter, hq, hp]
          exact Nat.lt_succ_of_lt (ih hmem)
      · simp [List.filter, hq, h b hq]
        exact ih hmem

theorem stepReady_not_completed (state : WorkflowState) (step : WorkflowStep)
    (h : stepReady state step = true) :
    state.completedSteps.contains step.id = false := by
  cases hcc : state.completedSteps.contains step.id with
  | false => rfl
  | true =>
    rw [stepReady] at h
    simp [hcc] at h
    exact (h.1 (by simpa using hcc)).elim

theorem countRemaining_push (steps : List WorkflowStep) (completed : List String)
    (step : WorkflowStep) (hmem : step ∈ steps)
    (hnc : completed.contains step.id = false) :
    countRemaining steps (completed ++ [step.id]) < countRemaining steps completed := by
  refine length_filter_lt steps _ _ ?himp step hmem ?hp ?hq
  case himp =>
    intro a hqa
    simp only [Bool.not_eq_true'] at hqa ⊢
    simp at hqa ⊢
    intro hmm
    exact absurd (Or.inl hmm) (by simpa using hqa)
  case hp => simpa using hnc
  case hq => simp

/-- `WorkflowEngine.executeNextStep`, refactored to act on the one instance it
drives (the source recursion re-reads `this.states.get(instanceId)`, which
only this loop mutates, and `this.workflows` is not mutated during the run, so
threading the single state through is equivalent). Each branch mirrors the
source: no eligible step → `completed`; step paused for human input; step
succeeded → recurse; step failed or threw → `failed`. -/
def execLoop (ex : StepExecutor) (workflow : WorkflowDefinition) (instanceId : String)
    (state : WorkflowState) : LoopResult :=
  match hf : findNextStep workflow state with
  | none =>
    { state := { state with status := Status.completed }
      setPending := none
      events := [⟨instanceId, EventData.workflow_completed⟩]
      statusWrites := [Status.completed] }
  | some nextStep =>
    let s1 : WorkflowState :=
      { state with currentStepId := some nextStep.id, status := Status.running }
    match ex nextStep s1 with
    | Except.error msg =>
      { state := { s1 with status := Status.failed }
        setPending := none
        events := [⟨instanceId, EventData.step_started nextStep.id⟩,
                   ⟨instanceId, EventData.workflow_failed nextStep.id (some msg)⟩]
        statusWrites := [Status.running, Status.failed] }
    | Except.ok result =>
      match result.requiresHuman with
      | some h =>
        { state := { s1 with status := Status.paused }
          setPending := some h
          events := [⟨instanceId, EventData.step_started nextStep.id⟩,
                     ⟨instanceId, EventData.human_input_required h⟩]
          statusWrites := [Status.running, Status.paused] }
      | none =>
        if result.success then
          let s2 : WorkflowState :=
            { s1 with
              completedSteps := s1.completedSteps ++ [nextStep.id]
              stepData :=
                match result.data with
                | some d => if truthy d then aset s1.stepData nextStep.id d else s1.stepData
                | none => s1.stepData }
          let r := execLoop ex workflow instanceId s2
          { state := r.state
            setPending := r.setPending
            events := ⟨instanceId, EventData.step_started nextStep.id⟩ ::
                      ⟨instanceId, EventData.step_completed nextStep.id result.data⟩ :: r.events
            statusWrites := Status.running :: r.statusWrites }
        else
          { state := { s1 with status := Status.failed }
            setPending := none
            events := [⟨instanceId, EventData.step_started nextStep.id⟩,
                       ⟨instanceId, EventData.workflow_failed nextStep.id result.error⟩]
            statusWrites := [Status.running, Status.failed] }
termination_by countRemaining workflow.steps state.completedSteps
decreasing_by
  have hmem : nextStep ∈ workflow.steps := List.mem_of_find?_eq_some hf
  have hp := List.find?_some hf
  have hnc := stepReady_not_completed state nextStep hp
  exact countRemaining_push workflow.steps state.completedSteps nextStep hmem hnc

/-- Manual equation lemma: no eligible step — the workflow is treated as
complete. -/
theorem execLoop_none (ex : StepExecutor) (workflow : WorkflowDefinition)
    (instanceId : String) (state : WorkflowState)
    (h : findNextStep workflow state = none) :
    execLoop ex workflow instanceId state =
      { state := { state with status := Status.completed }
        setPending := none
        events := [⟨instanceId, EventData.workflow_completed⟩]
        statusWrites := [Status.completed] } := by
  rw [execLoop.eq_def, h]

/-- Manual equation lemma: the executed step threw — caught and converted to a
terminal `failed` status plus a `workflow_failed` event. -/
theorem execLoop_throw (ex : StepExecutor) (workflow : WorkflowDefinition)
    (instanceId : String) (state : WorkflowState) (nextStep : WorkflowStep) (msg : String)
    (h : findNextStep workflow state = some nextStep)
    (hex : ex nextStep { state with currentStepId := some nextStep.id, status := Status.running } =
      Except.error msg) :
    execLoop ex workflow instanceId state =
      { state := { state with currentStepId := some nextStep.id, status := Status.failed }
        setPending := none
        events := [⟨instanceId, EventData.step_started nextStep.id⟩,
                   ⟨instanceId, EventData.workflow_failed nextStep.id (some msg)⟩]
        statusWrites := [Status.running, Status.failed] } := by
  rw [execLoop.eq_def, h]
  simp only [hex]

/-- Manual equation lemma: the step requests human input — pause. -/
theorem execLoop_human (ex : StepExecutor) (workflow : WorkflowDefinition)
    (instanceId : String) (state : WorkflowState) (nextStep : WorkflowStep)
    (result : StepResult) (h : findNextStep workflow state = some nextStep)
    (hex : ex nextStep { state with currentStepId := some nextStep.id, status := Status.running } =
      Except.ok result)
    (hreq : result.requiresHuman = some hi) :
    execLoop ex workflow instanceId state =
      { state := { state with currentStepId := some nextStep.id, status := Status.paused }
        setPending := some hi
        events := [⟨instanceId, EventData.step_started nextStep.id⟩,
                   ⟨instanceId, EventData.human_input_required hi⟩]
        statusWrites := [Status.running, Status.paused] } := by
  rw [execLoop.eq_def, h]
  simp only [hex, hreq]

/-- Manual equation lemma: the step returned an unsuccessful result — terminal
`failed` status plus a `workflow_failed` event carrying `result.error`. -/
theorem execLoop_fail (ex : StepExecutor) (workflow : WorkflowDefinition)
    (instanceId : String) (state : WorkflowState) (nextStep : WorkflowStep)
    (result : StepResult) (h : findNextStep workflow state = some nextStep)
    (hex : ex nextStep { state with currentStepId := some nextStep.id, status := Status.running } =
      Except.ok result)
    (hreq : result.requiresHuman = none) (hsucc : result.success = false) :
    execLoop ex workflow instanceId state =
      { state := { state with currentStepId := some nextStep.id, status := Status.failed }
        setPending := none
        events := [⟨instanceId, EventData.step_started nextStep.id⟩,
                   ⟨instanceId, EventData.workflow_failed nextStep.id result.error⟩]
        statusWrites := [Status.running, Status.failed] } := by
  rw [execLoop.eq_def, h]
  simp only [hex, hreq, hsucc]
  simp

/-- Manual equation lemma: the step succeeded — record completion and data,
then continue the loop. -/
theorem execLoop_success (ex : StepExecutor) (workflow : WorkflowDefinition)
    (instanceId : String) (state : WorkflowState) (nextStep : WorkflowStep)
    (result : StepResult) (h : findNextStep workflow state = some nextStep)
    (hex : ex nextStep { state with currentStepId := some nextStep.id, status := Status.running } =
      Except.ok result)
    (hreq : result.requiresHuman = none) (hsucc : result.success = true) :
    execLoop ex workflow instanceId state =
      (let s2 : WorkflowState :=
        { state with
          currentStepId := some nextStep.id
          status := Status.running
          completedSteps := state.completedSteps ++ [nextStep.id]
          stepData :=
            match result.data with
            | some d => if truthy d then aset state.stepData nextStep.id d else state.stepData
            | none => state.stepData }
      let r := execLoop ex workflow instanceId s2
      { state := r.state
        setPending := r.setPending
        events := ⟨instanceId, EventData.step_started nextStep.id⟩ ::
                  ⟨instanceId, EventData.step_completed nextStep.id result.data⟩ :: r.events
        statusWrites := Status.running :: r.statusWrites }) := by
  rw [execLoop.eq_def, h]
  simp only [hex, hreq, hsucc]
  simp

/-- The engine's instance-indexed mutable state (`private workflows`,
`private states`, `private pendingHumanInputs` of the `WorkflowEngine`
class). -/
structure Engine where
  workflows : List (String × WorkflowDefinition)
  states : List (String × WorkflowState)
  pendingHumanInputs : List (String × HumanInput)

/-- A freshly constructed engine: all three maps empty. -/
def engineNew : Engine := ⟨[], [], []⟩

/-- `WorkflowEngine.registerWorkflow`. -/
def registerWorkflow (e : Engine) (workflow : WorkflowDefinition) : Engine :=
  { e with workflows := aset e.workflows workflow.id workflow }

/-- Fold one loop run back into the engine maps: the instance's state is
stored, and the pause branch (if taken) stores the pending human input. -/
def applyLoop (e : Engine) (instanceId : String) (r : LoopResult) : Engine :=
  { e with
    states := aset e.states instanceId r.state
    pendingHumanInputs :=
      match r.setPending with
      | some h => aset e.pendingHumanInputs instanceId h
      | none => e.pendingHumanInputs }

/-- `WorkflowEngine.executeNextStep` at the engine level: resolve the instance
state and its definition (silently a no-op if either is missing), then run the
loop. Also returns the emitted events and the status-write trace. -/
def executeNextStep (ex : StepExecutor) (e : Engine) (instanceId : String) :
    Engine × List WorkflowEvent × List Status :=
  match alookup e.states instanceId with
  | none => (e, [], [])
  | some state =>
    match alookup e.workflows state.workflowId with
    | none => (e, [], [])
    | some workflow =>
      let r := execLoop ex workflow instanceId state
      (applyLoop e instanceId r, r.events, r.statusWrites)

/-- `WorkflowEngine.startWorkflow`. The generated `uuidv4()` instance id is
passed as the `instanceId` argument. Throws (`Except.error`) when the workflow
id is unknown; otherwise creates the instance in status `pending` with
`stepData` seeded from `initialData || {}` and immediately drives execution.
Returns the engine at exit together with the thrown error or the instance id,
the emitted events, and the status-write trace. -/
def startWorkflow (ex : StepExecutor) (e : Engine) (workflowId : String)
    (instanceId : String) (initialData : Option (List (String × Value))) :
    Engine × Except String (String × List WorkflowEvent × List Status) :=
  match alookup e.workflows workflowId with
  | none => (e, Except.error ("Workflow " ++ workflowId ++ " not found"))
  | some _ =>
    let state : WorkflowState :=
      { id := instanceId
        workflowId := workflowId
        currentStepId := none
        completedSteps := []
        stepData := initialData.getD []
        status := Status.pending }
    let e1 : Engine := { e with states := aset e.states instanceId state }
    let o := executeNextStep ex e1 instanceId
    (o.1, Except.ok (instanceId, o.2))

/-- JS object spread `{...v}` of an optional stored value: an object spreads
its properties, a string spreads its character indices, other primitives (and
a missing value) contribute nothing. -/
def spreadProps : Option Value → List (String × Value)
  | some (Value.vObj fields) => fields
  | some (Value.vStr s) =>
    (List.range s.length).zip (s.toList.map (fun c => Value.vStr (String.mk [c]))) |>.map
      (fun p => (toString p.1, p.2))
  | _ => []

/-- The human-input merge of `provideHumanInput`:
`{...state.stepData[stepId], humanInput: input}`. -/
def mergeHumanInput (old : Option Value) (input : Value) : Value :=
  Value.vObj (aset (spreadProps old) "humanInput" input)

/-- `WorkflowEngine.provideHumanInput`. Throws (`Except.error`) when the
instance does not exist, has no pending input recorded, or is not paused — the
source checks all three with one condition before any mutation. On success:
merges the answer under the `humanInput` sub-key, marks the step completed,
sets status `running`, clears the pending input, emits `step_completed`, and
resumes the loop. -/
def provideHumanInput (ex : StepExecutor) (e : Engine) (instanceId : String) (input : Value) :
    Engine × Except String (List WorkflowEvent × List Status) :=
  match alookup e.states instanceId, alookup e.pendingHumanInputs instanceId with
  | some state, some pendingInput =>
    if state.status = Status.paused then
      let s1 : WorkflowState :=
        { state with
          stepData := aset state.stepData pendingInput.stepId
            (mergeHumanInput (alookup state.stepData pendingInput.stepId) input)
          completedSteps := state.completedSteps ++ [pendingInput.stepId]
          status := Status.running }
      let e1 : Engine :=
        { e with
          states := aset e.states instanceId s1
          pendingHumanInputs := aerase e.pendingHumanInputs instanceId }
      let o := executeNextStep ex e1 instanceId
      (o.1, Except.ok (⟨instanceId, EventData.step_completed pendingInput.stepId (some input)⟩ :: o.2.1,
                       Status.running :: o.2.2))
    else
      (e, Except.error "No pending human input for this workflow")
  | _, _ => (e, Except.error "No pending human input for this workflow")

/-- `WorkflowEngine.getWorkflowState`: pure lookup. -/
def getWorkflowState (e : Engine) (instanceId : String) : Option WorkflowState :=
  alookup e.states instanceId

/-- `WorkflowEngine.getPendingHumanInput`: pure lookup. -/
def getPendingHumanInput (e : Engine) (instanceId : String) : Option HumanInput :=
  alookup e.pendingHumanInputs instanceId

/-- Engine states reachable through the public API (`registerWorkflow`,
`startWorkflow` with a fresh generated uuid, `provideHumanInput`; the getters
are pure). The executor is fixed but arbitrary, covering subclass overrides of
`executeStep`. -/
inductive Reachable (ex : StepExecutor) : Engine → Prop where
  | new : Reachable ex engineNew
  | register (e : Engine) (workflow : WorkflowDefinition) :
      Reachable ex e → Reachable ex (registerWorkflow e workflow)
  | start (e : Engine) (workflowId instanceId : String)
      (initialData : Option (List (String × Value))) :
      Reachable ex e →
      alookup e.states instanceId = none →
      Reachable ex (startWorkflow ex e workflowId instanceId initialData).1
  | provide (e : Engine) (instanceId : String) (input : Value) :
      Reachable ex e → Reachable ex (provideHumanInput ex e instanceId input).1

/-! ## LLM dispatch layer (source files `src/quality/llm/LLMManager.ts`,
`src/quality/llm/providers/BaseLLMProvider.ts`,
`src/quality/llm/providers/GeminiProvider.ts`) -/

/-- `LLMMessage` (`role` is one of `"system" | "user" | "assistant"` in the
type declaration, but only string comparisons occur at runtime). -/
structure LLMMessage where
  role : String
  content : String

/-- `LLMResponse.usage`. -/
structure LLMUsage where
  promptTokens : Nat
  completionTokens : Nat
  totalTokens : Nat

/-- `LLMResponse`. -/
structure LLMResponse where
  content : String
  usage : Option LLMUsage
  model : String
  provider : String

/-- `LLMOptions` (the fields the dispatch path reads; `temperature` is a
float and is only passed through opaquely, so it is omitted). -/
structure LLMOptions where
  model : Option String
  maxTokens : Option Nat

/-- A constructed provider adapter: its stable `name`, its declared supported
models, and its `chat` behavior. `chatFn` models the (deterministic) result of
`provider.chat(messages, options)`; `Except.error` models a thrown error. -/
structure BaseLLMProvider where
  name : String
  supportedModels : List String
  chatFn : List LLMMessage → Option LLMOptions → Except String LLMResponse

/-- The `LLMManager` state: the constructed-provider map (keyed by provider
type), the primary provider type, and the fallback provider types. -/
structure LLMManager where
  providers : List (String × BaseLLMProvider)
  primaryProvider : String
  fallbackProviders : List String

/-- The try order built at the top of `LLMManager.chat`:
`[this.primaryProvider, ...this.fallbackProviders.filter(p => this.providers.has(p))]`.
No deduplication is performed. -/
def providersToTry (m : LLMManager) : List String :=
  m.primaryProvider :: m.fallbackProviders.filter (fun p => (alookup m.providers p).isSome)

/-- The `for (const providerType of providersToTry)` loop of
`LLMManager.chat`, threading the manager (the loop body reads `this` and never
writes it). Returns the manager at exit, the list of providers actually
attempted (the source logs one line per attempt), and the result: an
unconstructed entry is skipped; a successful call returns its response; a
failing call throws `AllProvidersFailed` when the failing provider type equals
the LAST entry of the try order (a value comparison in the source), and
otherwise continues; a loop that falls through throws. -/
def chatLoop (m : LLMManager) (messages : List LLMMessage) (options : Option LLMOptions)
    (order : List String) :
    List String → List String → LLMManager × List String × Except String LLMResponse
  | [], attempts => (m, attempts, Except.error "No LLM providers available")
  | providerType :: rest, attempts =>
    match alookup m.providers providerType with
    | none => chatLoop m messages options order rest attempts
    | some provider =>
      match provider.chatFn messages options with
      | Except.ok response => (m, attempts ++ [providerType], Except.ok response)
      | Except.error err =>
        if order.getLast? = some providerType then
          (m, attempts ++ [providerType],
           Except.error ("All available LLM providers failed. Last error: " ++ err))
        else
          chatLoop m messages options order rest (attempts ++ [providerType])

/-- `LLMManager.chat`. -/
def LLMManager.chat (m : LLMManager) (messages : List LLMMessage)
    (options : Option LLMOptions) : LLMManager × List String × Except String LLMResponse :=
  chatLoop m messages options (providersToTry m) (providersToTry m) []

/-- `LLMManager.switchPrimaryProvider`: throws `NotAvailable` if the type was
not constructed, otherwise updates only the primary pointer. -/
def LLMManager.switchPrimaryProvider (m : LLMManager) (provider : String) :
    LLMManager × Except String Unit :=
  if (alookup m.providers provider).isSome then
    ({ m with primaryProvider := provider }, Except.ok ())
  else
    (m, Except.error ("Provider " ++ provider ++ " is not available"))

/-- One entry of the Gemini request history: `{role, parts: [{text}]}` (the
`parts` array is always a singleton in the source). -/
structure GeminiContent where
  role : String
  text : String

/-- The message-conversion loop of `GeminiProvider.chat` (source lines 79-101):
system messages are skipped (`continue`) — the adjacent comment says "prepend
to first user message" but nothing is prepended; a user message is buffered in
`lastMessage`; an assistant message first flushes a buffered user message into
the history and then appends a model turn. -/
def geminiConvert : List LLMMessage → List GeminiContent → String → List GeminiContent × String
  | [], history, lastMessage => (history, lastMessage)
  | message :: rest, history, lastMessage =>
    if message.role = "system" then
      geminiConvert rest history lastMessage
    else if message.role = "user" then
      geminiConvert rest history message.content
    else if message.role = "assistant" then
      let history1 := if lastMessage ≠ "" then history ++ [⟨"user", lastMessage⟩] else history
      let lastMessage1 : String := if lastMessage ≠ "" then "" else lastMessage
      geminiConvert rest (history1 ++ [⟨"model", message.content⟩]) lastMessage1
    else
      geminiConvert rest history lastMessage

/-- The payload `GeminiProvider.chat` hands to the backend: the converted
history plus the text passed to `sendMessage(lastMessage ||
messages[messages.length - 1].content)`; `none` models the runtime error on an
empty message list. -/
def geminiChatPayload (messages : List LLMMessage) : Option (List GeminiContent × String) :=
  let conv := geminiConvert messages [] ""
  if conv.2 ≠ "" then some (conv.1, conv.2)
  else
    match messages.getLast? with
    | some m => some (conv.1, m.content)
    | none => none

/-! ## Claim theorems -/

/-- Eligibility of a step, written from the spec's own words ("id NOT in
completedSteps AND every declared dependency IS in completedSteps; a step with
no dependencies always qualifies") — the spec-side definition compared against
the source-side `stepReady`/`findNextStep`. -/
def specEligible (completedSteps : List String) (step : WorkflowStep) : Prop :=
  step.id ∉ completedSteps ∧ ∀ dep ∈ step.dependencies.getD [], dep ∈ completedSteps

theorem stepReady_iff (state : WorkflowState) (step : WorkflowStep) :
    stepReady state step = true ↔ specEligible state.completedSteps step := by
  unfold stepReady specEligible
  cases hdep : step.dependencies with
  | none =>
    by_cases hc : step.id ∈ state.completedSteps <;> simp [hc, hdep]
  | some deps =>
    by_cases hc : step.id ∈ state.completedSteps <;>
      simp [hc, hdep, List.all_eq_true]

/-- C1: `findNextStep` returns the first step in the definition's declared
order that is eligible in the spec's sense (id not completed, every declared
dependency completed, a step with no dependencies always qualifying); it
returns `none` exactly when no step is eligible, and in that case the
execution loop sets the workflow's status to `completed`. -/
theorem findNextStep_first_eligible :
    (∀ (workflow : WorkflowDefinition) (state : WorkflowState) (step : WorkflowStep),
      findNextStep workflow state = some step →
        specEligible state.completedSteps step ∧
        ∃ pre post, workflow.steps = pre ++ step :: post ∧
          ∀ s ∈ pre, ¬ specEligible state.completedSteps s) ∧
    (∀ (workflow : WorkflowDefinition) (state : WorkflowState),
      findNextStep workflow state = none ↔
        ∀ step ∈ workflow.steps, ¬ specEligible state.completedSteps step) ∧
    (∀ (ex : StepExecutor) (workflow : WorkflowDefinition) (instanceId : String)
      (state : WorkflowState), findNextStep workflow state = none →
        (execLoop ex workflow instanceId state).state.status = Status.completed) := by
  refine ⟨?h1, ?h2, ?h3⟩
  case h1 =>
    intro workflow state step h
    rw [findNextStep, List.find?_eq_some] at h
    obtain ⟨hp, pre, post, heq, hpre⟩ := h
    refine ⟨(stepReady_iff state step).mp hp, pre, post, heq, ?_⟩
    intro s hs hcontra
    have hns := hpre s hs
    simp only [Bool.not_eq_true'] at hns
    have := (stepReady_iff state s).mpr hcontra
    rw [this] at hns
    exact absurd hns (by simp)
  case h2 =>
    intro workflow state
    rw [findNextStep, List.find?_eq_none]
    constructor
    · intro h step hmem hel
      exact (h step hmem) ((stepReady_iff state step).mpr hel)
    · intro h step hmem hready
      exact (h step hmem) ((stepReady_iff state step).mp hready)
  case h3 =>
    intro ex workflow instanceId state h
    rw [execLoop_none ex workflow instanceId state h]

/-- Fixtures: a two-step linear definition and an instance that has completed
the first step. -/
def cfgEmpty : StepConfig := ⟨none, none, none, none⟩

def stepA : WorkflowStep := ⟨"a", "A", "system", cfgEmpty, none⟩

def stepB : WorkflowStep := ⟨"b", "B", "system", cfgEmpty, some ["a"]⟩

def wf1 : WorkflowDefinition := ⟨"w1", "w1", none, [stepA, stepB], none⟩

def st1 : WorkflowState := ⟨"i1", "w1", none, ["a"], [], Status.running⟩

/-- Witness for C1: on the concrete two-step definition with step "a"
completed, the selection facts hold at step "b". -/
theorem findNextStep_first_eligible_witness :
    (specEligible st1.completedSteps stepB ∧
      ∃ pre post, wf1.steps = pre ++ stepB :: post ∧
        ∀ s ∈ pre, ¬ specEligible st1.completedSteps s) ∧
    ((findNextStep wf1 { st1 with completedSteps := ["a", "b"] } = none) ↔
      ∀ step ∈ wf1.steps, ¬ specEligible ["a", "b"] step) :=
  ⟨findNextStep_first_eligible.1 wf1 st1 stepB rfl,
   findNextStep_first_eligible.2.1 wf1 { st1 with completedSteps := ["a", "b"] }⟩

/-- C4 (code bug): the Gemini provider's message conversion silently DROPS
system-message content (the loop's `continue` skips it, while the adjacent
source comment says "prepend to first user message"): on
`[system "You are terse.", user "Hi"]` the payload sent to the backend is
exactly the payload of `[user "Hi"]` alone — empty history and the bare user
text — so the system content is discarded, not folded in. -/
theorem gemini_system_message_dropped :
    geminiChatPayload [⟨"system", "You are terse."⟩, ⟨"user", "Hi"⟩] = some ([], "Hi") ∧
    geminiChatPayload [⟨"system", "You are terse."⟩, ⟨"user", "Hi"⟩] =
      geminiChatPayload [⟨"user", "Hi"⟩] :=
  ⟨rfl, rfl⟩

/-- C9: on a definition in which every step declares a nonempty dependency
list (in particular any dependency cycle over all steps), no step is eligible
at start, so `start` immediately marks the instance `completed` with empty
`completedSteps`: no step is executed, no error is raised, and no cycle is
detected. -/
theorem cyclic_definition_completes_silently (ex : StepExecutor) (e : Engine)
    (workflow : WorkflowDefinition) (workflowId instanceId : String)
    (initialData : Option (List (String × Value)))
    (hw : alookup e.workflows workflowId = some workflow)
    (hcyc : ∀ step ∈ workflow.steps, step.dependencies.getD [] ≠ []) :
    (startWorkflow ex e workflowId instanceId initialData).2 =
      Except.ok (instanceId, [⟨instanceId, EventData.workflow_completed⟩], [Status.completed]) ∧
    getWorkflowState (startWorkflow ex e workflowId instanceId initialData).1 instanceId =
      some { id := instanceId, workflowId := workflowId, currentStepId := none,
             completedSteps := [], stepData := initialData.getD [],
             status := Status.completed } := by
  have hfind : findNextStep workflow
      { id := instanceId, workflowId := workflowId, currentStepId := none,
        completedSteps := [], stepData := initialData.getD [],
        status := Status.pending } = none := by
    rw [findNextStep, List.find?_eq_none]
    intro step hmem
    have hdep := hcyc step hmem
    unfold stepReady
    cases hd : step.dependencies with
    | none => simp [hd] at hdep
    | some deps =>
      cases deps with
      | nil => simp [hd] at hdep
      | cons d ds => simp [hd]
  have hloop := execLoop_none ex workflow instanceId _ hfind
  unfold startWorkflow
  simp only [hw]
  simp [executeNextStep, applyLoop, getWorkflowState, alookup_aset, hw, hloop]

/-- Fixtures: a two-step dependency cycle. -/
def stepC1 : WorkflowStep := ⟨"c1", "C1", "system", cfgEmpty, some ["c2"]⟩

def stepC2 : WorkflowStep := ⟨"c2", "C2", "system", cfgEmpty, some ["c1"]⟩

def wfCyc : WorkflowDefinition := ⟨"wc", "wc", none, [stepC1, stepC2], none⟩

/-- Witness for C9: the concrete two-step cycle completes silently with no
step executed. -/
theorem cyclic_definition_completes_silently_witness :
    (startWorkflow defaultExecutor (registerWorkflow engineNew wfCyc) "wc" "ic" none).2 =
      Except.ok ("ic", [⟨"ic", EventData.workflow_completed⟩], [Status.completed]) ∧
    getWorkflowState
      (startWorkflow defaultExecutor (registerWorkflow engineNew wfCyc) "wc" "ic" none).1 "ic" =
      some { id := "ic", workflowId := "wc", currentStepId := none,
             completedSteps := [], stepData := [], status := Status.completed } :=
  cyclic_definition_completes_silently defaultExecutor (registerWorkflow engineNew wfCyc)
    wfCyc "wc" "ic" none rfl
    (by
      intro step hmem
      simp [wfCyc] at hmem
      rcases hmem with rfl | rfl <;> simp [stepC1, stepC2])

/-- C8: a step execution that throws, or that returns an unsuccessful result
(the unknown-step-type default included), makes the loop set the instance's
status to `failed` and emit a `workflow_failed` event carrying that step's id
and an error description; and the failure is never re-thrown to the caller:
`startWorkflow` returns normally whenever the definition exists, and
`provideHumanInput` returns normally whenever its own preconditions hold. -/
theorem step_failure_sets_failed_status :
    (∀ (ex : StepExecutor) (workflow : WorkflowDefinition) (instanceId : String)
      (state : WorkflowState) (nextStep : WorkflowStep) (msg : String),
      findNextStep workflow state = some nextStep →
      ex nextStep { state with currentStepId := some nextStep.id, status := Status.running } =
        Except.error msg →
      (execLoop ex workflow instanceId state).state.status = Status.failed ∧
      (execLoop ex workflow instanceId state).events =
        [⟨instanceId, EventData.step_started nextStep.id⟩,
         ⟨instanceId, EventData.workflow_failed nextStep.id (some msg)⟩]) ∧
    (∀ (ex : StepExecutor) (workflow : WorkflowDefinition) (instanceId : String)
      (state : WorkflowState) (nextStep : WorkflowStep) (result : StepResult),
      findNextStep workflow state = some nextStep →
      ex nextStep { state with currentStepId := some nextStep.id, status := Status.running } =
        Except.ok result →
      result.requiresHuman = none → result.success = false →
      (execLoop ex workflow instanceId state).state.status = Status.failed ∧
      (execLoop ex workflow instanceId state).events =
        [⟨instanceId, EventData.step_started nextStep.id⟩,
         ⟨instanceId, EventData.workflow_failed nextStep.id result.error⟩]) ∧
    (∀ (ex : StepExecutor) (e : Engine) (workflowId instanceId : String)
      (initialData : Option (List (String × Value))) (workflow : WorkflowDefinition),
      alookup e.workflows workflowId = some workflow →
      ∃ out, (startWorkflow ex e workflowId instanceId initialData).2 = Except.ok out) ∧
    (∀ (ex : StepExecutor) (e : Engine) (instanceId : String) (input : Value)
      (state : WorkflowState) (pendingInput : HumanInput),
      alookup e.states instanceId = some state →
      alookup e.pendingHumanInputs instanceId = some pendingInput →
      state.status = Status.paused →
      ∃ out, (provideHumanInput ex e instanceId input).2 = Except.ok out) := by
  refine ⟨?h1, ?h2, ?h3, ?h4⟩
  case h1 =>
    intro ex workflow instanceId state nextStep msg hfind hex
    rw [execLoop_throw ex workflow instanceId state nextStep msg hfind hex]
    exact ⟨rfl, rfl⟩
  case h2 =>
    intro ex workflow instanceId state nextStep result hfind hex hreq hsucc
    rw [execLoop_fail ex workflow instanceId state nextStep result hfind hex hreq hsucc]
    exact ⟨rfl, rfl⟩
  case h3 =>
    intro ex e workflowId instanceId initialData workflow hw
    unfold startWorkflow
    simp only [hw]
    exact ⟨_, rfl⟩
  case h4 =>
    intro ex e instanceId input state pendingInput hs hp hpaused
    unfold provideHumanInput
    simp only [hs, hp, hpaused, if_pos]
    exact ⟨_, rfl⟩

/-- Fixtures: a definition whose single step has the unknown type "bogus". -/
def stepBogus : WorkflowStep := ⟨"x", "X", "bogus", cfgEmpty, none⟩

def wfBogus : WorkflowDefinition := ⟨"wb", "wb", none, [stepBogus], none⟩

def stB0 : WorkflowState := ⟨"ib", "wb", none, [], [], Status.pending⟩

/-- Witness for C8: running the bogus-typed step fails the workflow, the
failure event names the step and the unknown-type error, and `startWorkflow`
on the registered definition still returns normally. -/
theorem step_failure_sets_failed_status_witness :
    ((execLoop defaultExecutor wfBogus "ib" stB0).state.status = Status.failed ∧
     (execLoop defaultExecutor wfBogus "ib" stB0).events =
       [⟨"ib", EventData.step_started "x"⟩,
        ⟨"ib", EventData.workflow_failed "x" (some "Unknown step type: bogus")⟩]) ∧
    (∃ out, (startWorkflow defaultExecutor (registerWorkflow engineNew wfBogus)
      "wb" "ibx" none).2 = Except.ok out) := by
  refine ⟨?w1, ?w2⟩
  case w1 =>
    exact step_failure_sets_failed_status.2.1 defaultExecutor wfBogus "ib" stB0 stepBogus
      (executeStep stepBogus
        { stB0 with currentStepId := some stepBogus.id, status := Status.running })
      rfl rfl rfl rfl
  case w2 =>
    exact step_failure_sets_failed_status.2.2.1 defaultExecutor
      (registerWorkflow engineNew wfBogus) "wb" "ibx" none wfBogus rfl

/-- C6: `provideHumanInput` throws exactly when the instance does not exist,
or no pending human input is recorded for it, or its status is not `paused`;
and in every such case the engine state (all three maps, hence the instance's
status, completedSteps, stepData and pending input) is left completely
unchanged. -/
theorem provideHumanInput_invalid_state (ex : StepExecutor) (e : Engine)
    (instanceId : String) (input : Value) :
    ((∃ msg, (provideHumanInput ex e instanceId input).2 = Except.error msg) ↔
      (getWorkflowState e instanceId = none ∨
       getPendingHumanInput e instanceId = none ∨
       ∃ st, getWorkflowState e instanceId = some st ∧ st.status ≠ Status.paused)) ∧
    ((∃ msg, (provideHumanInput ex e instanceId input).2 = Except.error msg) →
      (provideHumanInput ex e instanceId input).1 = e) := by
  unfold provideHumanInput getWorkflowState getPendingHumanInput
  cases hs : alookup e.states instanceId with
  | none =>
    cases hp : alookup e.pendingHumanInputs instanceId <;>
      exact ⟨⟨fun _ => Or.inl rfl, fun _ => ⟨_, rfl⟩⟩, fun _ => rfl⟩
  | some state =>
    cases hp : alookup e.pendingHumanInputs instanceId with
    | none =>
      exact ⟨⟨fun _ => Or.inr (Or.inl rfl), fun _ => ⟨_, rfl⟩⟩, fun _ => rfl⟩
    | some pendingInput =>
      by_cases hpaused : state.status = Status.paused
      · simp only [hpaused, if_pos rfl]
        constructor
        · constructor
          · rintro ⟨msg, hmsg⟩
            exact absurd hmsg (by simp)
          · rintro (h | h | ⟨st, hst, hne⟩)
            · exact absurd h (by simp)
            · exact absurd h (by simp)
            · rw [Option.some_inj] at hst
              exact absurd (hst ▸ hpaused) hne
        · rintro ⟨msg, hmsg⟩
          exact absurd hmsg (by simp)
      · simp only [if_neg hpaused]
        refine ⟨⟨fun _ => Or.inr (Or.inr ⟨state, rfl, hpaused⟩), fun _ => ?_⟩, fun _ => trivial⟩
        exact ⟨"No pending human input for this workflow", rfl⟩

/-- Fixture: an engine whose instance "ir" is `running` while (artificially)
still having a pending-input record — exercising the not-paused error case. -/
def stRun : WorkflowState := ⟨"ir", "w1", some "b", ["a"], [], Status.running⟩

def hiDummy : HumanInput := ⟨"b", "p", "text", none, none⟩

def eRun : Engine := ⟨[("w1", wf1)], [("ir", stRun)], [("ir", hiDummy)]⟩

/-- Witness for C6: on the running (not paused) instance the call throws and
the engine is unchanged. -/
theorem provideHumanInput_invalid_state_witness :
    (∃ msg, (provideHumanInput defaultExecutor eRun "ir" (Value.vStr "yes")).2 =
      Except.error msg) ∧
    (provideHumanInput defaultExecutor eRun "ir" (Value.vStr "yes")).1 = eRun := by
  have h := provideHumanInput_invalid_state defaultExecutor eRun "ir" (Value.vStr "yes")
  have herr : (∃ msg, (provideHumanInput defaultExecutor eRun "ir" (Value.vStr "yes")).2 =
      Except.error msg) :=
    h.1.mpr (Or.inr (Or.inr ⟨stRun, rfl, by simp [stRun]⟩))
  exact ⟨herr, h.2 herr⟩

theorem execLoop_pending_iff_paused (ex : StepExecutor) (workflow : WorkflowDefinition)
    (instanceId : String) (state : WorkflowState) :
    ((execLoop ex workflow instanceId state).setPending.isSome = true ↔
      (execLoop ex workflow instanceId state).state.status = Status.paused) := by
  induction state using execLoop.induct ex workflow instanceId with
  | case1 state hf =>
    rw [execLoop_none _ _ _ _ hf]
    simp
  | case2 state nextStep hf s1 msg hex =>
    rw [execLoop_throw _ _ _ _ _ _ hf hex]
    simp
  | case3 state nextStep hf s1 result hex hi hreq =>
    rw [execLoop_human _ _ _ _ _ _ hf hex hreq]
    simp
  | case4 state nextStep hf s1 result hex hreq hsucc s2 ih =>
    rw [execLoop_success _ _ _ _ _ _ hf hex hreq hsucc]
    simpa using ih
  | case5 state nextStep hf s1 result hex hreq hsucc =>
    rw [execLoop_fail _ _ _ _ _ _ hf hex hreq (by simpa using hsucc)]
    simp

/-- The C2 invariant: a pending-input entry exists for an instance exactly
when that instance exists and is paused. -/
def pendingInvariant (e : Engine) : Prop :=
  ∀ id, (alookup e.pendingHumanInputs id).isSome = true ↔
    ∃ st, alookup e.states id = some st ∧ st.status = Status.paused

theorem executeNextStep_pendingInvariant (ex : StepExecutor) (e : Engine) (instanceId : String)
    (hpend : alookup e.pendingHumanInputs instanceId = none)
    (hinv : pendingInvariant e) :
    pendingInvariant (executeNextStep ex e instanceId).1 := by
  cases hs : alookup e.states instanceId with
  | none =>
    have heq : (executeNextStep ex e instanceId).1 = e := by
      simp only [executeNextStep, hs]
    rw [heq]; exact hinv
  | some state =>
    cases hw : alookup e.workflows state.workflowId with
    | none =>
      have heq : (executeNextStep ex e instanceId).1 = e := by
        simp only [executeNextStep, hs, hw]
      rw [heq]; exact hinv
    | some workflow =>
      have heq : (executeNextStep ex e instanceId).1 =
          applyLoop e instanceId (execLoop ex workflow instanceId state) := by
        simp only [executeNextStep, hs, hw]
      rw [heq]
      intro id
      simp only [applyLoop]
      by_cases hid : id = instanceId
      · subst hid
        cases hsp : (execLoop ex workflow id state).setPending with
        | some h0 =>
          have hpaused := (execLoop_pending_iff_paused ex workflow id state).mp (by simp [hsp])
          simp [alookup_aset, hsp, hpaused]
        | none =>
          have hnp : ¬ (execLoop ex workflow id state).state.status = Status.paused := by
            intro hcon
            have := (execLoop_pending_iff_paused ex workflow id state).mpr hcon
            simp [hsp] at this
          simp [alookup_aset, hsp, hpend, hnp]
      · cases hsp : (execLoop ex workflow instanceId state).setPending with
        | some h0 => simpa [alookup_aset, hsp, hid] using hinv id
        | none => simpa [alookup_aset, hsp, hid] using hinv id

theorem reachable_pendingInvariant (ex : StepExecutor) (e : Engine) (h : Reachable ex e) :
    pendingInvariant e := by
  induction h with
  | new => intro id; simp [engineNew, alookup]
  | register e workflow hr ih => exact ih
  | start e workflowId instanceId initialData hr hfresh ih =>
    unfold startWorkflow
    cases hw : alookup e.workflows workflowId with
    | none => simp only [hw]; exact ih
    | some workflow =>
      simp only [hw]
      have hpend : alookup e.pendingHumanInputs instanceId = none := by
        cases hcase : alookup e.pendingHumanInputs instanceId with
        | none => rfl
        | some h0 =>
          exfalso
          obtain ⟨st, hst, _⟩ := (ih instanceId).mp (by simp [hcase])
          rw [hfresh] at hst
          cases hst
      apply executeNextStep_pendingInvariant
      · exact hpend
      · intro id
        by_cases hid : id = instanceId
        · subst hid
          simp [alookup_aset, hpend]
        · simpa [alookup_aset, hid] using ih id
  | provide e instanceId input hr ih =>
    unfold provideHumanInput
    cases hs : alookup e.states instanceId with
    | none => exact ih
    | some state =>
      cases hp : alookup e.pendingHumanInputs instanceId with
      | none => exact ih
      | some pendingInput =>
        by_cases hpaused : state.status = Status.paused
        · simp only [hpaused, if_pos rfl]
          apply executeNextStep_pendingInvariant
          · simp [alookup_aerase]
          · intro id
            by_cases hid : id = instanceId
            · subst hid
              simp [alookup_aset, alookup_aerase]
            · simpa [alookup_aset, alookup_aerase, hid] using ih id
        · simp only [if_neg hpaused]
          exact ih

/-- C2: for every engine state reachable through the public API (with an
arbitrary step executor, any registration/start/resume sequence, and fresh
generated instance ids), a pending-human-input entry exists for an instance
if and only if that instance exists and its status is `paused`. -/
theorem pending_input_iff_paused (ex : StepExecutor) (e : Engine) (h : Reachable ex e)
    (instanceId : String) :
    ((getPendingHumanInput e instanceId).isSome = true ↔
      ∃ st, getWorkflowState e instanceId = some st ∧ st.status = Status.paused) :=
  reachable_pendingInvariant ex e h instanceId

/-- Fixtures: a single-human-step definition, its paused run. -/
def stepH : WorkflowStep := ⟨"h1", "H", "human", cfgEmpty, none⟩

def wfH : WorkflowDefinition := ⟨"wh", "wh", none, [stepH], none⟩

def hiH : HumanInput := ⟨"h1", "Input required for step: H", "text", none, none⟩

def stH0 : WorkflowState := ⟨"ih", "wh", none, [], [], Status.pending⟩

def eH : Engine := registerWorkflow engineNew wfH

theorem runH : execLoop defaultExecutor wfH "ih"
    { id := "ih", workflowId := "wh", currentStepId := none, completedSteps := [],
      stepData := [], status := Status.pending } =
    { state := { id := "ih", workflowId := "wh", currentStepId := some "h1",
                 completedSteps := [], stepData := [], status := Status.paused }
      setPending := some hiH
      events := [⟨"ih", EventData.step_started "h1"⟩,
                 ⟨"ih", EventData.human_input_required hiH⟩]
      statusWrites := [Status.running, Status.paused] } := by
  have h := @execLoop_human hiH defaultExecutor wfH "ih"
    { id := "ih", workflowId := "wh", currentStepId := none, completedSteps := [],
      stepData := [], status := Status.pending } stepH
    (executeStep stepH
      { id := "ih", workflowId := "wh", currentStepId := some stepH.id, completedSteps := [],
        stepData := [], status := Status.running })
    rfl rfl rfl
  simpa [stepH] using h

theorem eH1_eq : (startWorkflow defaultExecutor eH "wh" "ih" none).1 =
    ⟨[("wh", wfH)], [("ih", { id := "ih", workflowId := "wh", currentStepId := some "h1",
                              completedSteps := [], stepData := [], status := Status.paused })],
     [("ih", hiH)]⟩ := by
  have hw : alookup eH.workflows "wh" = some wfH := rfl
  have hid : wfH.id = "wh" := rfl
  simp only [startWorkflow, hw]
  simp [executeNextStep, applyLoop, alookup_aset, runH, eH, registerWorkflow, engineNew,
    aset, alookup, hid]

/-- Witness for C2: the concrete paused run has a pending input, and the
theorem recovers from it that the stored instance is paused. -/
theorem pending_input_iff_paused_witness :
    ∃ st, getWorkflowState (startWorkflow defaultExecutor eH "wh" "ih" none).1 "ih" =
      some st ∧ st.status = Status.paused := by
  have hreach : Reachable defaultExecutor (startWorkflow defaultExecutor eH "wh" "ih" none).1 :=
    Reachable.start eH "wh" "ih" none (Reachable.register engineNew wfH Reachable.new) rfl
  refine (pending_input_iff_paused defaultExecutor _ hreach "ih").mp ?_
  rw [eH1_eq]
  rfl

/-- The status changes the (amended) spec chain allows: the source moves
pending→running, running→paused, paused→running, running→completed,
running→failed, and — when no step is eligible at the very first selection —
pending→completed directly. -/
def allowedChange : Status → Status → Bool
  | Status.pending, Status.running => true
  | Status.pending, Status.completed => true
  | Status.running, Status.paused => true
  | Status.running, Status.completed => true
  | Status.running, Status.failed => true
  | Status.paused, Status.running => true
  | _, _ => false

/-- A status-write trace is admissible from a starting status when every
change of value follows `allowedChange` (repeated writes of the same value are
not transitions). -/
def chainOK : Status → List Status → Bool
  | _, [] => true
  | s, s' :: rest => (s == s' || allowedChange s s') && chainOK s' rest

theorem execLoop_chainOK (ex : StepExecutor) (workflow : WorkflowDefinition)
    (instanceId : String) (state : WorkflowState) :
    state.status = Status.pending ∨ state.status = Status.running →
    chainOK state.status (execLoop ex workflow instanceId state).statusWrites = true := by
  induction state using execLoop.induct ex workflow instanceId with
  | case1 state hf =>
    intro h
    rw [execLoop_none _ _ _ _ hf]
    rcases h with h | h <;> rw [h] <;> rfl
  | case2 state nextStep hf s1 msg hex =>
    intro h
    rw [execLoop_throw _ _ _ _ _ _ hf hex]
    rcases h with h | h <;> rw [h] <;> rfl
  | case3 state nextStep hf s1 result hex hi hreq =>
    intro h
    rw [execLoop_human _ _ _ _ _ _ hf hex hreq]
    rcases h with h | h <;> rw [h] <;> rfl
  | case4 state nextStep hf s1 result hex hreq hsucc s2 ih =>
    intro h
    rw [execLoop_success _ _ _ _ _ _ hf hex hreq hsucc]
    simp only [chainOK, Bool.and_eq_true, Bool.or_eq_true]
    constructor
    · rcases h with h | h <;> rw [h] <;> simp [allowedChange]
    · simpa using ih (Or.inr rfl)
  | case5 state nextStep hf s1 result hex hreq hsucc =>
    intro h
    rw [execLoop_fail _ _ _ _ _ _ hf hex hreq (by simpa using hsucc)]
    rcases h with h | h <;> rw [h] <;> rfl

theorem executeNextStep_states_other (ex : StepExecutor) (e : Engine)
    (instanceId id : String) (hne : id ≠ instanceId) :
    alookup (executeNextStep ex e instanceId).1.states id = alookup e.states id := by
  cases hs : alookup e.states instanceId with
  | none =>
    have heq : (executeNextStep ex e instanceId).1 = e := by
      simp only [executeNextStep, hs]
    rw [heq]
  | some state =>
    cases hw : alookup e.workflows state.workflowId with
    | none =>
      have heq : (executeNextStep ex e instanceId).1 = e := by
        simp only [executeNextStep, hs, hw]
      rw [heq]
    | some workflow =>
      have heq : (executeNextStep ex e instanceId).1 =
          applyLoop e instanceId (execLoop ex workflow instanceId state) := by
        simp only [executeNextStep, hs, hw]
      rw [heq]
      simp [applyLoop, alookup_aset, hne]

/-- C5 (amended): within one run of the execution loop the status writes
follow the chain pending→running→(paused↔running)*→(completed|failed) EXCEPT
that a workflow with no eligible first step moves pending→completed directly
(never having been running); the full write trace of `start` is admissible
from `pending` and that of `provideHumanInput` from `paused`; and `completed`
and `failed` are terminal — no engine operation ever changes a terminal
instance's stored state. -/
theorem status_transition_discipline :
    (∀ (ex : StepExecutor) (workflow : WorkflowDefinition) (instanceId : String)
        (state : WorkflowState),
      state.status = Status.pending ∨ state.status = Status.running →
      chainOK state.status (execLoop ex workflow instanceId state).statusWrites = true) ∧
    (∀ (ex : StepExecutor) (e : Engine) (workflowId instanceId : String)
        (initialData : Option (List (String × Value)))
        (out : String × List WorkflowEvent × List Status),
      (startWorkflow ex e workflowId instanceId initialData).2 = Except.ok out →
      chainOK Status.pending out.2.2 = true) ∧
    (∀ (ex : StepExecutor) (e : Engine) (instanceId : String) (input : Value)
        (out : List WorkflowEvent × List Status),
      (provideHumanInput ex e instanceId input).2 = Except.ok out →
      ∃ st, alookup e.states instanceId = some st ∧ st.status = Status.paused ∧
        chainOK Status.paused out.2 = true) ∧
    (∀ (ex : StepExecutor) (e : Engine) (id : String) (st : WorkflowState),
      alookup e.states id = some st →
      st.status = Status.completed ∨ st.status = Status.failed →
      (∀ workflow, alookup (registerWorkflow e workflow).states id = some st) ∧
      (∀ workflowId instanceId initialData,
        alookup e.states instanceId = none →
        alookup (startWorkflow ex e workflowId instanceId initialData).1.states id = some st) ∧
      (∀ instanceId input,
        alookup (provideHumanInput ex e instanceId input).1.states id = some st)) := by
  refine ⟨execLoop_chainOK, ?h2, ?h3, ?h4⟩
  case h2 =>
    intro ex e workflowId instanceId initialData out hok
    unfold startWorkflow at hok
    cases hw : alookup e.workflows workflowId with
    | none => rw [hw] at hok; cases hok
    | some workflow =>
      rw [hw] at hok
      simp only [Except.ok.injEq] at hok
      subst hok
      have heq : (executeNextStep ex
          { e with states := aset e.states instanceId
                                ({ id := instanceId, workflowId := workflowId,
                                   currentStepId := none, completedSteps := [],
                                   stepData := initialData.getD [],
                                   status := Status.pending }) } instanceId).2.2 =
          (execLoop ex workflow instanceId
            { id := instanceId, workflowId := workflowId, currentStepId := none,
              completedSteps := [], stepData := initialData.getD [],
              status := Status.pending }).statusWrites := by
        simp [executeNextStep, alookup_aset, hw]
      simp only [heq]
      exact execLoop_chainOK ex workflow instanceId
        ({ id := instanceId, workflowId := workflowId, currentStepId := none,
           completedSteps := [], stepData := initialData.getD [],
           status := Status.pending }) (Or.inl rfl)
  case h3 =>
    intro ex e instanceId input out hok
    cases hs : alookup e.states instanceId with
    | none => simp [provideHumanInput, hs] at hok
    | some state =>
      cases hp : alookup e.pendingHumanInputs instanceId with
      | none => simp [provideHumanInput, hs, hp] at hok
      | some pendingInput =>
        by_cases hpaused : state.status = Status.paused
        · simp only [provideHumanInput, hs, hp, hpaused, if_true, eq_self_iff_true,
            Except.ok.injEq] at hok
          subst hok
          refine ⟨state, rfl, hpaused, ?_⟩
          simp only [chainOK, Bool.and_eq_true, Bool.or_eq_true]
          refine ⟨Or.inr rfl, ?_⟩
          set s1 : WorkflowState :=
            { state with
              stepData := aset state.stepData pendingInput.stepId
                (mergeHumanInput (alookup state.stepData pendingInput.stepId) input)
              completedSteps := state.completedSteps ++ [pendingInput.stepId]
              status := Status.running } with hs1
          set e1 : Engine :=
            { e with
              states := aset e.states instanceId s1
              pendingHumanInputs := aerase e.pendingHumanInputs instanceId } with he1
          cases hw : alookup e.workflows state.workflowId with
          | none =>
            have heq : (executeNextStep ex e1 instanceId).2.2 = [] := by
              simp [executeNextStep, he1, hs1, alookup_aset, hw]
            simp [heq, chainOK]
          | some workflow =>
            have heq : (executeNextStep ex e1 instanceId).2.2 =
                (execLoop ex workflow instanceId s1).statusWrites := by
              simp [executeNextStep, he1, hs1, alookup_aset, hw]
            simp only [heq]
            exact execLoop_chainOK ex workflow instanceId s1 (Or.inr rfl)
        · simp [provideHumanInput, hs, hp, hpaused] at hok
  case h4 =>
    intro ex e id st hst hterm
    refine ⟨fun workflow => hst, ?start, ?provide⟩
    case start =>
      intro workflowId instanceId initialData hfresh
      have hne : id ≠ instanceId := by
        intro hcon
        rw [hcon, hfresh] at hst
        cases hst
      cases hw : alookup e.workflows workflowId with
      | none =>
        have heq : (startWorkflow ex e workflowId instanceId initialData).1 = e := by
          simp only [startWorkflow, hw]
        rw [heq]; exact hst
      | some workflow =>
        have heq : (startWorkflow ex e workflowId instanceId initialData).1 =
            (executeNextStep ex
              { e with states := aset e.states instanceId
                                    ({ id := instanceId, workflowId := workflowId,
                                       currentStepId := none, completedSteps := [],
                                       stepData := initialData.getD [],
                                       status := Status.pending }) } instanceId).1 := by
          simp only [startWorkflow, hw]
        rw [heq, executeNextStep_states_other _ _ _ _ hne]
        simpa [alookup_aset, hne] using hst
    case provide =>
      intro instanceId input
      cases hs : alookup e.states instanceId with
      | none =>
        have heq : (provideHumanInput ex e instanceId input).1 = e := by
          simp only [provideHumanInput, hs]
        rw [heq]; exact hst
      | some state =>
        cases hp : alookup e.pendingHumanInputs instanceId with
        | none =>
          have heq : (provideHumanInput ex e instanceId input).1 = e := by
            simp only [provideHumanInput, hs, hp]
          rw [heq]; exact hst
        | some pendingInput =>
          by_cases hpaused : state.status = Status.paused
          · have hne : id ≠ instanceId := by
              intro hcon
              rw [hcon, hs] at hst
              rw [Option.some_inj] at hst
              rw [hst] at hpaused
              rcases hterm with h | h <;> rw [h] at hpaused <;> cases hpaused
            have heq : (provideHumanInput ex e instanceId input).1 =
                (executeNextStep ex
                  { e with
                    states := aset e.states instanceId
                                   ({ state with
                                      stepData := aset state.stepData pendingInput.stepId
                                        (mergeHumanInput
                                          (alookup state.stepData pendingInput.stepId) input)
                                      completedSteps :=
                                        state.completedSteps ++ [pendingInput.stepId]
                                      status := Status.running })
                    pendingHumanInputs := aerase e.pendingHumanInputs instanceId }
                  instanceId).1 := by
              simp only [provideHumanInput, hs, hp, if_pos hpaused]
            rw [heq, executeNextStep_states_other _ _ _ _ hne]
            simpa [alookup_aset, hne] using hst
          · have heq : (provideHumanInput ex e instanceId input).1 = e := by
              simp only [provideHumanInput, hs, hp, if_neg hpaused]
            rw [heq]; exact hst

/-- Fixture: the empty-step definition and a finished instance. -/
def wfE : WorkflowDefinition := ⟨"we", "we", none, [], none⟩

def stDone : WorkflowState := ⟨"id1", "w1", none, ["a", "b"], [], Status.completed⟩

def eDone : Engine := ⟨[("w1", wf1)], [("id1", stDone)], []⟩

/-- Counterexample for C5: starting the registered zero-step definition moves
the instance from its creation status `pending` directly to `completed` — the
status-write trace is exactly `[completed]`, so `running` is never among the
statuses the instance holds, refuting "an instance never reaches completed or
failed without first having been running". -/
theorem status_skips_running_counterexample :
    (startWorkflow defaultExecutor (registerWorkflow engineNew wfE) "we" "i0" none).2 =
      Except.ok ("i0", [⟨"i0", EventData.workflow_completed⟩], [Status.completed]) ∧
    getWorkflowState
      (startWorkflow defaultExecutor (registerWorkflow engineNew wfE) "we" "i0" none).1 "i0" =
      some { id := "i0", workflowId := "we", currentStepId := none, completedSteps := [],
             stepData := [], status := Status.completed } ∧
    Status.running ∉ [Status.pending, Status.completed] := by
  have hloop := execLoop_none defaultExecutor wfE "i0"
    { id := "i0", workflowId := "we", currentStepId := none, completedSteps := [],
      stepData := [], status := Status.pending } rfl
  have hw : alookup (registerWorkflow engineNew wfE).workflows "we" = some wfE := rfl
  have hid : wfE.id = "we" := rfl
  refine ⟨?a, ?b, by decide⟩ <;>
    (simp only [startWorkflow, hw]
     simp [executeNextStep, applyLoop, getWorkflowState, alookup_aset, hloop,
       registerWorkflow, engineNew, aset, alookup, hid])

/-- Witness for C5 (amended): the paused human-step run's write trace is
admissible from `pending`, and `provideHumanInput` on a completed instance
leaves it untouched. -/
theorem status_transition_discipline_witness :
    chainOK Status.pending (execLoop defaultExecutor wfH "ih"
      { id := "ih", workflowId := "wh", currentStepId := none, completedSteps := [],
        stepData := [], status := Status.pending }).statusWrites = true ∧
    alookup (provideHumanInput defaultExecutor eDone "id1" (Value.vStr "x")).1.states "id1" =
      some stDone :=
  ⟨status_transition_discipline.1 defaultExecutor wfH "ih"
     { id := "ih", workflowId := "wh", currentStepId := none, completedSteps := [],
       stepData := [], status := Status.pending } (Or.inl rfl),
   (status_transition_discipline.2.2.2 defaultExecutor eDone "id1" stDone rfl
     (Or.inl rfl)).2.2 "id1" (Value.vStr "x")⟩

/-- A provider entry that is skipped or fails in a chat attempt: either not
constructed, or constructed and throwing. -/
def providerFails (m : LLMManager) (messages : List LLMMessage) (options : Option LLMOptions)
    (q : String) : Prop :=
  alookup m.providers q = none ∨
    ∃ prov err, alookup m.providers q = some prov ∧
      prov.chatFn messages options = Except.error err

theorem chatLoop_fst (m : LLMManager) (messages : List LLMMessage)
    (options : Option LLMOptions) (order : List String) :
    ∀ (toTry attempts : List String),
      (chatLoop m messages options order toTry attempts).1 = m := by
  intro toTry
  induction toTry with
  | nil => intro attempts; rfl
  | cons q rest ih =>
    intro attempts
    cases hlq : alookup m.providers q with
    | none => simp only [chatLoop, hlq]; exact ih attempts
    | some prov =>
      cases hc : prov.chatFn messages options with
      | ok resp => simp only [chatLoop, hlq, hc]
      | error err =>
        simp only [chatLoop, hlq, hc]
        by_cases hlast : order.getLast? = some q
        · rw [if_pos hlast]
        · rw [if_neg hlast]; exact ih (attempts ++ [q])

theorem chatLoop_ok_shape (m : LLMManager) (messages : List LLMMessage)
    (options : Option LLMOptions) (order : List String) :
    ∀ (toTry attempts att : List String) (m' : LLMManager) (resp : LLMResponse),
      chatLoop m messages options order toTry attempts = (m', att, Except.ok resp) →
      ∃ pre p post prov,
        toTry = pre ++ p :: post ∧
        alookup m.providers p = some prov ∧
        prov.chatFn messages options = Except.ok resp ∧
        (∀ q ∈ pre, providerFails m messages options q) ∧
        att = attempts ++ (pre ++ [p]).filter (fun q => (alookup m.providers q).isSome) := by
  intro toTry
  induction toTry with
  | nil =>
    intro attempts att m' resp h
    simp [chatLoop] at h
  | cons q rest ih =>
    intro attempts att m' resp h
    cases hlq : alookup m.providers q with
    | none =>
      simp only [chatLoop, hlq] at h
      obtain ⟨pre, p, post, prov, hsplit, hlp, hok, hpre, hatt⟩ := ih attempts att m' resp h
      refine ⟨q :: pre, p, post, prov, by simp [hsplit], hlp, hok, ?_, ?_⟩
      · intro q2 hq2
        rcases List.mem_cons.mp hq2 with rfl | hmem
        · exact Or.inl hlq
        · exact hpre q2 hmem
      · simpa [List.filter_cons, hlq] using hatt
    | some prov =>
      cases hc : prov.chatFn messages options with
      | ok resp0 =>
        simp only [chatLoop, hlq, hc] at h
        obtain ⟨hm, hatt, hresp⟩ : m = m' ∧ attempts ++ [q] = att ∧ Except.ok resp0 = Except.ok resp := by
          simpa [Prod.ext_iff] using h
        refine ⟨[], q, rest, prov, rfl, hlq, ?_, by simp, ?_⟩
        · rw [hc]; exact hresp
        · simp [← hatt, List.filter_cons, hlq]
      | error err =>
        simp only [chatLoop, hlq, hc] at h
        by_cases hlast : order.getLast? = some q
        · rw [if_pos hlast] at h
          simp [Prod.ext_iff] at h
        · rw [if_neg hlast] at h
          obtain ⟨pre, p, post, prov2, hsplit, hlp, hok, hpre, hatt⟩ :=
            ih (attempts ++ [q]) att m' resp h
          refine ⟨q :: pre, p, post, prov2, by simp [hsplit], hlp, hok, ?_, ?_⟩
          · intro q2 hq2
            rcases List.mem_cons.mp hq2 with rfl | hmem
            · exact Or.inr ⟨prov, err, hlq, hc⟩
            · exact hpre q2 hmem
          · simpa [List.filter_cons, hlq] using hatt

theorem chatLoop_allfail (m : LLMManager) (messages : List LLMMessage)
    (options : Option LLMOptions) (order : List String) (lastV : String)
    (provL : BaseLLMProvider) (eL : String)
    (hlast : order.getLast? = some lastV)
    (hlookL : alookup m.providers lastV = some provL)
    (hfailL : provL.chatFn messages options = Except.error eL) :
    ∀ (toTry attempts : List String),
      toTry ≠ [] →
      toTry.getLast? = some lastV →
      (∀ p ∈ toTry, ∀ prov, alookup m.providers p = some prov →
        ∃ e, prov.chatFn messages options = Except.error e) →
      ∃ att, chatLoop m messages options order toTry attempts =
        (m, att, Except.error ("All available LLM providers failed. Last error: " ++ eL)) := by
  intro toTry
  induction toTry with
  | nil => intro attempts hne; exact absurd rfl hne
  | cons q rest ih =>
    intro attempts _ hlastT hfail
    cases rest with
    | nil =>
      have hq : q = lastV := by simpa using hlastT
      subst hq
      simp only [chatLoop, hlookL, hfailL, if_pos hlast]
      exact ⟨attempts ++ [q], rfl⟩
    | cons q2 rest2 =>
      have hlastT2 : (q2 :: rest2).getLast? = some lastV := by
        simpa [List.getLast?_cons_cons] using hlastT
      have hfail2 : ∀ p ∈ q2 :: rest2, ∀ prov, alookup m.providers p = some prov →
          ∃ e, prov.chatFn messages options = Except.error e :=
        fun p hp => hfail p (List.mem_cons_of_mem q hp)
      cases hlq : alookup m.providers q with
      | none =>
        simp only [chatLoop, hlq]
        exact ih attempts (by simp) hlastT2 hfail2
      | some prov =>
        obtain ⟨e, he⟩ := hfail q (List.mem_cons_self q _) prov hlq
        simp only [chatLoop, hlq, he]
        by_cases hqlast : order.getLast? = some q
        · rw [if_pos hqlast]
          have hql : lastV = q := by
            rw [hqlast] at hlast
            exact (Option.some_inj.mp hlast).symm
          subst hql
          rw [hlq] at hlookL
          have hpe : prov = provL := Option.some_inj.mp hlookL
          subst hpe
          rw [he] at hfailL
          have : e = eL := by injection hfailL
          subst this
          exact ⟨attempts ++ [lastV], rfl⟩
        · rw [if_neg hqlast]
          exact ih (attempts ++ [q]) (by simp) hlastT2 hfail2

theorem chatLoop_reaches_success (m : LLMManager) (messages : List LLMMessage)
    (options : Option LLMOptions) (order : List String) (lastV : String)
    (hlast : order.getLast? = some lastV) :
    ∀ (pre : List String) (p : String) (post attempts : List String)
      (prov : BaseLLMProvider) (resp : LLMResponse),
      alookup m.providers p = some prov →
      prov.chatFn messages options = Except.ok resp →
      (∀ q ∈ pre, alookup m.providers q = none ∨
        (q ≠ lastV ∧ ∃ provq e, alookup m.providers q = some provq ∧
          provq.chatFn messages options = Except.error e)) →
      ∃ att, chatLoop m messages options order (pre ++ p :: post) attempts =
        (m, att, Except.ok resp) := by
  intro pre
  induction pre with
  | nil =>
    intro p post attempts prov resp hlp hok _
    simp only [List.nil_append, chatLoop, hlp, hok]
    exact ⟨attempts ++ [p], rfl⟩
  | cons q pre' ih =>
    intro p post attempts prov resp hlp hok hpre
    rcases hpre q (List.mem_cons_self q _) with hq | ⟨hqne, provq, e, hlq, he⟩
    · simp only [List.cons_append, chatLoop, hq]
      exact ih p post attempts prov resp hlp hok
        (fun q2 hq2 => hpre q2 (List.mem_cons_of_mem q hq2))
    · simp only [List.cons_append, chatLoop, hlq, he]
      have hne2 : ¬ order.getLast? = some q := by
        rw [hlast]
        intro hcon
        exact hqne (Option.some_inj.mp hcon).symm
      rw [if_neg hne2]
      exact ih p post (attempts ++ [q]) prov resp hlp hok
        (fun q2 hq2 => hpre q2 (List.mem_cons_of_mem q hq2))

/-- C3 (amended): `chat` builds the try order as [primary] ++ [fallbacks
restricted to constructed providers] and tries it left to right WITHOUT
deduplication (a primary repeated in the fallback list is retried); it returns
the response of the first provider whose call succeeds completely untouched —
in particular its `provider` field is whatever the provider itself set, which
names the succeeding provider for well-formed providers — and the attempt log
is exactly the constructed prefix of the order up to the success. -/
theorem chat_first_success_untouched (m : LLMManager) (messages : List LLMMessage)
    (options : Option LLMOptions) (m' : LLMManager) (att : List String) (resp : LLMResponse)
    (hwf : ∀ p prov, alookup m.providers p = some prov →
      ∀ r, prov.chatFn messages options = Except.ok r → r.provider = prov.name)
    (h : m.chat messages options = (m', att, Except.ok resp)) :
    ∃ pre p post prov,
      providersToTry m = pre ++ p :: post ∧
      providersToTry m =
        m.primaryProvider ::
          m.fallbackProviders.filter (fun q => (alookup m.providers q).isSome) ∧
      alookup m.providers p = some prov ∧
      prov.chatFn messages options = Except.ok resp ∧
      resp.provider = prov.name ∧
      (∀ q ∈ pre, providerFails m messages options q) ∧
      att = (pre ++ [p]).filter (fun q => (alookup m.providers q).isSome) := by
  have hshape := chatLoop_ok_shape m messages options (providersToTry m)
    (providersToTry m) [] att m' resp h
  obtain ⟨pre, p, post, prov, hsplit, hlp, hok, hpre, hatt⟩ := hshape
  exact ⟨pre, p, post, prov, hsplit, rfl, hlp, hok, hwf p prov hlp resp hok, hpre,
    by simpa using hatt⟩

/-- Fixtures: a failing provider "a", a succeeding provider "b", and managers
exercising duplicate try orders. -/
def respB : LLMResponse := ⟨"hello", none, "m1", "b"⟩

def provA : BaseLLMProvider := ⟨"a", ["m1"], fun _ _ => Except.error "afail"⟩

def provB : BaseLLMProvider := ⟨"b", ["m1"], fun _ _ => Except.ok respB⟩

def msgs1 : List LLMMessage := [⟨"user", "q"⟩]

def mgrDup : LLMManager := ⟨[("a", provA), ("b", provB)], "a", ["a", "b"]⟩

/-- Counterexample for C3: with primary "a" also present in the fallback list
and failing, the attempt log is ["a", "a", "b"] — provider "a" IS attempted a
second time, refuting "never attempting a provider that was already tried
(implicit deduplication)". -/
theorem chat_retries_duplicate_primary_counterexample :
    (mgrDup.chat msgs1 none).2.1 = ["a", "a", "b"] ∧
    (mgrDup.chat msgs1 none).2.2 = Except.ok respB ∧
    ¬ (["a", "a", "b"] : List String).Nodup :=
  ⟨rfl, rfl, by decide⟩

/-- Witness for C3 (amended): the theorem applied to the duplicate-primary
run. -/
theorem chat_first_success_untouched_witness :
    ∃ pre p post prov,
      providersToTry mgrDup = pre ++ p :: post ∧
      providersToTry mgrDup =
        mgrDup.primaryProvider ::
          mgrDup.fallbackProviders.filter (fun q => (alookup mgrDup.providers q).isSome) ∧
      alookup mgrDup.providers p = some prov ∧
      prov.chatFn msgs1 none = Except.ok respB ∧
      respB.provider = prov.name ∧
      (∀ q ∈ pre, providerFails mgrDup msgs1 none q) ∧
      ["a", "a", "b"] = (pre ++ [p]).filter (fun q => (alookup mgrDup.providers q).isSome) :=
  chat_first_success_untouched mgrDup msgs1 none mgrDup ["a", "a", "b"] respB
    (by
      intro p prov hl r hr
      by_cases ha : "a" = p
      · rw [← ha] at hl
        have : provA = prov := by simpa [mgrDup, alookup] using hl
        rw [← this] at hr
        cases hr
      · by_cases hb : "b" = p
        · rw [← hb] at hl
          have : provB = prov := by simpa [mgrDup, alookup, ha] using hl
          rw [← this] at hr
          have : respB = r := by injection hr
          rw [← this, ← ‹provB = prov›]
          rfl
        · rw [mgrDup] at hl
          simp [alookup, ha, hb] at hl)
    rfl

/-- C7 (amended): if every provider in the try order throws, `chat` throws
`AllProvidersFailed` carrying the error of the provider at the try order's
LAST entry (which, the errors being per-provider, is also the error of the
last attempted provider); and a provider that succeeds is reached — no error
is thrown — provided no failing provider EARLIER in the order has the same
type as the last entry (the source compares the failing provider's type
against the last entry by value, so such a duplicate aborts the loop early). -/
theorem allProvidersFailed_carries_last_error (m : LLMManager)
    (messages : List LLMMessage) (options : Option LLMOptions) :
    (∀ lastV provL eL,
      (providersToTry m).getLast? = some lastV →
      alookup m.providers lastV = some provL →
      provL.chatFn messages options = Except.error eL →
      (∀ p ∈ providersToTry m, ∀ prov, alookup m.providers p = some prov →
        ∃ e, prov.chatFn messages options = Except.error e) →
      (m.chat messages options).2.2 =
        Except.error ("All available LLM providers failed. Last error: " ++ eL)) ∧
    (∀ pre p post prov resp lastV,
      providersToTry m = pre ++ p :: post →
      (providersToTry m).getLast? = some lastV →
      alookup m.providers p = some prov →
      prov.chatFn messages options = Except.ok resp →
      (∀ q ∈ pre, alookup m.providers q = none ∨
        (q ≠ lastV ∧ ∃ provq e, alookup m.providers q = some provq ∧
          provq.chatFn messages options = Except.error e)) →
      (m.chat messages options).2.2 = Except.ok resp) := by
  constructor
  · intro lastV provL eL hlast hlookL hfailL hfail
    obtain ⟨att, heq⟩ := chatLoop_allfail m messages options (providersToTry m) lastV provL eL
      hlast hlookL hfailL (providersToTry m) [] (by simp [providersToTry]) hlast hfail
    show (chatLoop m messages options (providersToTry m) (providersToTry m) []).2.2 = _
    rw [heq]
  · intro pre p post prov resp lastV hsplit hlast hlp hok hpre
    obtain ⟨att, heq⟩ := chatLoop_reaches_success m messages options (providersToTry m) lastV
      hlast pre p post [] prov resp hlp hok hpre
    show (chatLoop m messages options (providersToTry m) (providersToTry m) []).2.2 = _
    rw [← hsplit] at heq
    rw [heq]

/-- Fixture: primary "a" failing, fallback order ["b", "a"] with "b"
succeeding — the failing primary's type equals the try order's last entry. -/
def mgrLastDup : LLMManager := ⟨[("a", provA), ("b", provB)], "a", ["b", "a"]⟩

def provC : BaseLLMProvider := ⟨"c", ["m1"], fun _ _ => Except.error "cfail"⟩

def mgrAllFail : LLMManager := ⟨[("a", provA), ("c", provC)], "a", ["c"]⟩

def mgrFb : LLMManager := ⟨[("a", provA), ("b", provB)], "a", ["b"]⟩

/-- Counterexample for C7: in try order ["a", "b", "a"], provider "b" — a
provider strictly before the last — would succeed, yet `chat` throws
`AllProvidersFailed` after the very first attempt, because the failing
primary's type "a" equals the try order's last entry by value. This refutes
"if some provider before the last succeeds, no error is thrown". -/
theorem allProvidersFailed_despite_viable_fallback_counterexample :
    providersToTry mgrLastDup = ["a", "b", "a"] ∧
    (mgrLastDup.chat msgs1 none).2.2 =
      Except.error "All available LLM providers failed. Last error: afail" ∧
    (mgrLastDup.chat msgs1 none).2.1 = ["a"] ∧
    (∃ prov, alookup mgrLastDup.providers "b" = some prov ∧
      prov.chatFn msgs1 none = Except.ok respB) :=
  ⟨rfl, rfl, rfl, provB, rfl, rfl⟩

/-- Witness for C7 (amended): with primary "a" and fallback "c" both failing,
the thrown message carries "c"'s (the last attempted) error; with primary "a"
failing once and fallback "b" succeeding, chat returns "b"'s response. -/
theorem allProvidersFailed_carries_last_error_witness :
    (mgrAllFail.chat msgs1 none).2.2 =
      Except.error ("All available LLM providers failed. Last error: " ++ "cfail") ∧
    (mgrFb.chat msgs1 none).2.2 = Except.ok respB := by
  constructor
  · refine (allProvidersFailed_carries_last_error mgrAllFail msgs1 none).1
      "c" provC "cfail" rfl rfl rfl ?_
    intro p hp prov hl
    have hp2 : p = "a" ∨ p = "c" := by
      simpa [providersToTry, mgrAllFail, alookup] using hp
    rcases hp2 with rfl | rfl
    · exact ⟨"afail", by
        have : provA = prov := by simpa [mgrAllFail, alookup] using hl
        rw [← this]; rfl⟩
    · exact ⟨"cfail", by
        have : provC = prov := by simpa [mgrAllFail, alookup] using hl
        rw [← this]; rfl⟩
  · refine (allProvidersFailed_carries_last_error mgrFb msgs1 none).2
      ["a"] "b" [] provB respB "b" rfl rfl rfl rfl ?_
    intro q hq
    have : q = "a" := by simpa using hq
    subst this
    exact Or.inr ⟨by decide, provA, "afail", rfl, rfl⟩

/-- C10: `chat` never mutates the manager — the primary pointer, fallback
list, and constructed-provider map are all unchanged by any chat call — and
`switchPrimaryProvider` changes the primary pointer (only when the requested
type is constructed) and nothing else. -/
theorem chat_leaves_manager_unchanged (m : LLMManager) (messages : List LLMMessage)
    (options : Option LLMOptions) (p : String) :
    (m.chat messages options).1 = m ∧
    ((m.switchPrimaryProvider p).1.providers = m.providers ∧
     (m.switchPrimaryProvider p).1.fallbackProviders = m.fallbackProviders) ∧
    ((alookup m.providers p).isSome = true →
      (m.switchPrimaryProvider p).1.primaryProvider = p) ∧
    ((alookup m.providers p).isSome = false → (m.switchPrimaryProvider p).1 = m) := by
  refine ⟨chatLoop_fst m messages options (providersToTry m) (providersToTry m) [], ?_, ?_, ?_⟩
  · unfold LLMManager.switchPrimaryProvider
    by_cases hp : (alookup m.providers p).isSome = true <;> simp [hp]
  · intro hp
    unfold LLMManager.switchPrimaryProvider
    simp [hp]
  · intro hp
    unfold LLMManager.switchPrimaryProvider
    simp [hp]

/-- Witness for C10: the duplicate-primary chat run returns the manager
unchanged, and switching the primary to the constructed "b" only moves the
pointer. -/
theorem chat_leaves_manager_unchanged_witness :
    (mgrDup.chat msgs1 none).1 = mgrDup ∧
    (mgrDup.switchPrimaryProvider "b").1.primaryProvider = "b" ∧
    (mgrDup.switchPrimaryProvider "b").1.providers = mgrDup.providers :=
  ⟨(chat_leaves_manager_unchanged mgrDup msgs1 none "b").1,
   (chat_leaves_manager_unchanged mgrDup msgs1 none "b").2.2.1 rfl,
   (chat_leaves_manager_unchanged mgrDup msgs1 none "b").2.1.1⟩
